import Mathlib

/-!
Shallow embedding of `src/app.py` (a small Flask "service desk" application)
for verification of its specification.

Part 1 models the schema reconciler `ensure_schema` (lines 99-167): a SQLite
store is abstracted as a record of optional tables, each table being a column
list (with the column's literal `DEFAULT`, when one is declared) together with
its rows.  `ALTER TABLE .. ADD COLUMN` follows SQLite semantics: the new
column is appended and every existing row reads the declared default (or NULL).

Part 2 models the entity model and the route handlers (ticket creation,
ticket update with audit events, comments, attachments) as pure state
transformers over an `AppState`, with `datetime.now` modelled by a
monotonically ticking counter and `uuid.uuid4().hex` by a fresh-token supply
drawn from a counter held in the state.
-/

namespace Schema

/-- A column of a SQLite table: its name and its declared literal
`DEFAULT` value, when one is present in the DDL. -/
structure Column where
  name : String
  dflt : Option String
deriving DecidableEq, Repr

/-- A table: its column list in declaration order, and its rows, each row
aligned positionally with the column list (`none` is SQL NULL). -/
structure Table where
  cols : List Column
  rows : List (List (Option String))
deriving DecidableEq, Repr

/-- The persistent store, restricted to the four tables `ensure_schema`
touches.  `none` means the table does not exist yet. -/
structure Store where
  tickets : Option Table
  comments : Option Table
  attachments : Option Table
  events : Option Table
deriving DecidableEq, Repr

/-- Column set of the `CREATE TABLE IF NOT EXISTS tickets` statement
(app.py lines 104-116). -/
def ticketsCreateCols : List Column :=
  [⟨"id", none⟩, ⟨"title", none⟩, ⟨"content", none⟩, ⟨"requester", none⟩,
   ⟨"assignee", none⟩, ⟨"priority", some "med"⟩, ⟨"status", some "open"⟩,
   ⟨"created_at", none⟩, ⟨"updated_at", none⟩]

/-- The `need_cols` list of app.py lines 120-127: columns added to an old
`tickets` table when missing, with their `ALTER TABLE` defaults. -/
def need_cols : List Column :=
  [⟨"content", none⟩, ⟨"assignee", none⟩, ⟨"priority", some "med"⟩,
   ⟨"status", some "open"⟩, ⟨"created_at", none⟩, ⟨"updated_at", none⟩]

/-- Column set of `CREATE TABLE IF NOT EXISTS comments` (lines 133-142). -/
def commentsCreateCols : List Column :=
  [⟨"id", none⟩, ⟨"ticket_id", none⟩, ⟨"author", none⟩, ⟨"body", none⟩,
   ⟨"created_at", none⟩]

/-- Column set of `CREATE TABLE IF NOT EXISTS attachments` (lines 143-153). -/
def attachmentsCreateCols : List Column :=
  [⟨"id", none⟩, ⟨"ticket_id", none⟩, ⟨"filename", none⟩,
   ⟨"stored_path", none⟩, ⟨"size", none⟩, ⟨"created_at", none⟩]

/-- Column set of `CREATE TABLE IF NOT EXISTS events` (lines 154-165). -/
def eventsCreateCols : List Column :=
  [⟨"id", none⟩, ⟨"ticket_id", none⟩, ⟨"actor", none⟩, ⟨"action", none⟩,
   ⟨"from_value", none⟩, ⟨"to_value", none⟩, ⟨"created_at", none⟩]

/-- Models `CREATE TABLE IF NOT EXISTS`: keep an existing table untouched, create an
empty table with the given columns otherwise.  The second component counts
structural changes performed (1 when the table was created). -/
def createIfNotExists (t : Option Table) (cols : List Column) : Table × Nat :=
  match t with
  | some tb => (tb, 0)
  | none => (⟨cols, []⟩, 1)

/-- Names of a table's columns, as `PRAGMA table_info` returns them. -/
def colNames (tb : Table) : List String :=
  tb.cols.map Column.name

/-- SQLite `ALTER TABLE .. ADD COLUMN`: the column is appended to the column
list and every existing row gains the column's default value (NULL when no
default is declared). -/
def addColumn (tb : Table) (c : Column) : Table :=
  ⟨tb.cols ++ [c], tb.rows.map (fun r => r ++ [c.dflt])⟩

/-- One step of the migration loop of app.py lines 128-130: add the column
only when its name is absent from the actual column list.  The second
component counts structural changes performed. -/
def addColIfMissing (tb : Table) (c : Column) : Table × Nat :=
  if c.name ∈ colNames tb then (tb, 0) else (addColumn tb c, 1)

/-- The body of the migration loop over `need_cols` (app.py lines 128-130),
threading the structural-change count. -/
def addMissing : Table → List Column → Table × Nat
  | tb, [] => (tb, 0)
  | tb, c :: cs =>
    let r := addColIfMissing tb c
    let rest := addMissing r.1 cs
    (rest.1, r.2 + rest.2)

/-- The schema reconciler `ensure_schema` of app.py lines 99-167, instrumented
with the number of structural changes (tables created plus columns added) the
run performs. -/
def ensureSchemaCount (s : Store) : Store × Nat :=
  let t1 := createIfNotExists s.tickets ticketsCreateCols
  let t2 := addMissing t1.1 need_cols
  let cm := createIfNotExists s.comments commentsCreateCols
  let at_ := createIfNotExists s.attachments attachmentsCreateCols
  let ev := createIfNotExists s.events eventsCreateCols
  (⟨some t2.1, some cm.1, some at_.1, some ev.1⟩,
   t1.2 + t2.2 + cm.2 + at_.2 + ev.2)

/-- The schema reconciler itself: the store it leaves behind. -/
def ensure_schema (s : Store) : Store :=
  (ensureSchemaCount s).1

/-- Read a named column of a row belonging to table `tb` (positional lookup
by the column's index, as SQL does). -/
def rowVal (tb : Table) (r : List (Option String)) (n : String) : Option String :=
  match tb.cols.findIdx? (fun c => c.name == n) with
  | some i => r.getD i none
  | none => none

/-- The column set of a legacy `tickets` table created by an old version of
the application: only `id`, `title`, `requester`. -/
def legacyTicketsCols : List Column :=
  [⟨"id", none⟩, ⟨"title", none⟩, ⟨"requester", none⟩]

/-- A store holding only the legacy `tickets` table with the given rows;
none of the dependent tables exist yet. -/
def legacyStore (rs : List (List (Option String))) : Store :=
  ⟨some ⟨legacyTicketsCols, rs⟩, none, none, none⟩

end Schema

namespace App

/-- The `Ticket` model (app.py lines 56-66).  Timestamps are abstracted to a
monotonically increasing `Nat` clock; `assignee` is nullable, `content` is
stored as the stripped form text (the `/new` handler always supplies it). -/
structure Ticket where
  id : Nat
  title : String
  content : String
  requester : String
  assignee : Option String
  priority : String
  status : String
  created_at : Nat
  updated_at : Nat
deriving DecidableEq, Repr

/-- The `Comment` model (app.py lines 68-74). -/
structure Comment where
  id : Nat
  ticket_id : Nat
  author : String
  body : String
  created_at : Nat
deriving DecidableEq, Repr

/-- The `Attachment` model (app.py lines 76-84). -/
structure Attachment where
  id : Nat
  ticket_id : Nat
  filename : String
  stored_path : String
  size : Nat
  created_at : Nat
deriving DecidableEq, Repr

/-- The `Event` model (app.py lines 86-94). -/
structure Event where
  id : Nat
  ticket_id : Nat
  actor : String
  action : String
  from_value : Option String
  to_value : Option String
  created_at : Nat
deriving DecidableEq, Repr

/-- The whole persistent application state: the four tables in insertion
order, the auto-increment counters, the fresh-token counter standing for the
`uuid.uuid4()` supply, and the current clock value standing for
`datetime.now`.  Every timestamp handed out is a fresh tick `now + 1`. -/
structure AppState where
  tickets : List Ticket
  comments : List Comment
  attachments : List Attachment
  events : List Event
  nextTicketId : Nat
  nextCommentId : Nat
  nextAttachmentId : Nat
  nextEventId : Nat
  uuidCtr : Nat
  now : Nat
deriving DecidableEq, Repr

/-- The empty store after `ensure_schema` on a fresh database: no rows,
auto-increment ids start at 1. -/
def s0 : AppState := ⟨[], [], [], [], 1, 1, 1, 1, 0, 0⟩

/-- The `STATUS_CHOICES` select options of app.py line 45: value and Korean
label. -/
def STATUS_CHOICES : List (String × String) :=
  [("open", "접수"), ("prog", "처리중"), ("hold", "보류"), ("done", "완료")]

/-- The `PRIORITY_CHOICES` select options of app.py line 46. -/
def PRIORITY_CHOICES : List (String × String) :=
  [("low", "낮음"), ("med", "보통"), ("high", "높음"), ("crit", "긴급")]

/-- The upload directory for attachment files (`FILES_DIR` of app.py line 18
under the default `/data/servicedesk.db` database path). -/
def FILES_DIR : String := "/data/files"

/-- Drop leading whitespace characters from a character list. -/
def lstripChars : List Char → List Char
  | [] => []
  | c :: cs => if c.isWhitespace then lstripChars cs else c :: cs

/-- Python `str.strip()`: remove whitespace from both ends, modelled by
dropping leading whitespace, then doing the same on the reversed remainder. -/
def strip (s : String) : String :=
  String.mk (lstripChars (lstripChars s.data).reverse).reverse

/-- Models `werkzeug.utils.secure_filename`: the sanitizer keeps only
filename-safe ASCII characters (letters, digits, dot, dash, underscore), in
particular removing every path separator. -/
def secure_filename (f : String) : String :=
  String.mk (f.data.filter fun c => c.isAlphanum || c == '.' || c == '-' || c == '_')

/-- Models `uuid.uuid4().hex`: a fresh unique token.  The randomness source
is abstracted into a deterministic injective supply drawn from the
`uuidCtr` counter of the state; call `n` of the supply yields a token of
length `n + 1`, so distinct calls yield distinct tokens. -/
def uuidHex (n : Nat) : String :=
  String.mk (List.replicate (n + 1) 'u')

/-- The helper `add_event` of app.py lines 180-184: append one immutable Event row with
a server-assigned id and timestamp. -/
def add_event (s : AppState) (tid : Nat) (actor action : String)
    (from_value to_value : Option String) : AppState :=
  let ts := s.now + 1
  { s with
    events := s.events ++ [⟨s.nextEventId, tid, actor, action, from_value, to_value, ts⟩],
    nextEventId := s.nextEventId + 1,
    now := ts }

/-- The POST branch of `new_ticket` (app.py lines 227-241).  Form fields are
stripped; an empty title or requester aborts with HTTP 400 before anything is
written; otherwise the ticket row is inserted (status defaults to `open`,
`created_at` and `updated_at` to the insertion time) and one `created` Event
is appended.  `priority?` is `none` when the form omits the field. -/
def new_ticket (s : AppState) (title content requester : String)
    (priority? : Option String) : Except String AppState :=
  let title := strip title
  let content := strip content
  let requester := strip requester
  let priority :=
    let p := strip (priority?.getD "med")
    if p = "" then "med" else p
  if title = "" ∨ requester = "" then
    .error "400 title/requester required"
  else
    let ts := s.now + 1
    let t : Ticket :=
      ⟨s.nextTicketId, title, content, requester, none, priority, "open", ts, ts⟩
    let s1 : AppState :=
      { s with tickets := s.tickets ++ [t], nextTicketId := s.nextTicketId + 1, now := ts }
    .ok (add_event s1 t.id (if requester = "" then "user" else requester) "created" none none)

/-- The status block of the update handler (app.py lines 254-257): a truthy
submitted status that differs from the current one appends a `status` Event
and mutates the field.  The triple carries the store, the in-memory ticket
object being mutated, and the `changed` flag. -/
def upd_status (actor : String) (status? : Option String)
    (p : AppState × Ticket × Bool) : AppState × Ticket × Bool :=
  match status? with
  | some ns =>
    if ns ≠ "" ∧ ns ≠ p.2.1.status then
      (add_event p.1 p.2.1.id actor "status" (some p.2.1.status) (some ns),
       { p.2.1 with status := ns }, true)
    else p
  | none => p

/-- The assignee block of the update handler (app.py lines 258-261): a
submitted assignee (possibly empty) that differs from the current value,
with NULL read as the empty string, appends an `assignee` Event and mutates
the field. -/
def upd_assignee (actor : String) (assignee? : Option String)
    (p : AppState × Ticket × Bool) : AppState × Ticket × Bool :=
  match assignee? with
  | some na =>
    if na ≠ (p.2.1.assignee.getD "") then
      (add_event p.1 p.2.1.id actor "assignee" (some (p.2.1.assignee.getD "")) (some na),
       { p.2.1 with assignee := some na }, true)
    else p
  | none => p

/-- The priority block of the update handler (app.py lines 262-265),
symmetric to the status block. -/
def upd_priority (actor : String) (priority? : Option String)
    (p : AppState × Ticket × Bool) : AppState × Ticket × Bool :=
  match priority? with
  | some np =>
    if np ≠ "" ∧ np ≠ p.2.1.priority then
      (add_event p.1 p.2.1.id actor "priority" (some p.2.1.priority) (some np),
       { p.2.1 with priority := np }, true)
    else p
  | none => p

/-- The POST branch of `ticket_detail` (app.py lines 243-269): look the
ticket up by primary key (404 when absent), run the three field blocks in
order, and, when at least one field changed, commit — which writes the
mutated ticket object back and stamps its `updated_at` (SQLAlchemy
`onupdate`).  A `none` argument is a field absent from the form. -/
def ticket_detail_post (s : AppState) (tid : Nat) (actor? : Option String)
    (status? assignee? priority? : Option String) : Except String AppState :=
  match s.tickets.find? (fun t => t.id == tid) with
  | none => .error "404"
  | some t =>
    let actor := actor?.getD "user"
    let p := upd_priority actor priority?
      (upd_assignee actor assignee? (upd_status actor status? (s, t, false)))
    let s3 := p.1
    let t3 := p.2.1
    if p.2.2 then
      let ts := s3.now + 1
      .ok { s3 with
            tickets := s3.tickets.map fun u =>
              if u.id == tid then { t3 with updated_at := ts } else u,
            now := ts }
    else .ok s3

/-- The handler `add_comment` (app.py lines 281-292): 404 when the ticket is unknown; an
empty (stripped) body is rejected with a flash warning and no write;
otherwise the comment row is inserted and one `comment` Event appended.  The
ticket row itself is never touched. -/
def add_comment (s : AppState) (tid : Nat) (author? body? : Option String) :
    Except String AppState :=
  match s.tickets.find? (fun t => t.id == tid) with
  | none => .error "404"
  | some t =>
    let author := let a := strip (author?.getD ""); if a = "" then "user" else a
    let body := strip (body?.getD "")
    if body = "" then .error "flash body required"
    else
      let ts := s.now + 1
      let c : Comment := ⟨s.nextCommentId, t.id, author, body, ts⟩
      let s1 : AppState :=
        { s with comments := s.comments ++ [c], nextCommentId := s.nextCommentId + 1, now := ts }
      .ok (add_event s1 t.id author "comment" none none)

/-- The handler `upload_attach` (app.py lines 295-316): 404 when the ticket is unknown; a
missing or empty filename is rejected with a flash warning and no write.
Otherwise the stored leaf name combines a fresh uuid token with the
sanitized original filename (falling back to `file` when sanitizing leaves
nothing), the file is saved under the per-ticket directory, the attachment
row is inserted with the written byte size, and one `attach` Event is
appended.  The ticket row itself is never touched. -/
def upload_attach (s : AppState) (tid : Nat) (author? : Option String)
    (filename? : Option String) (size : Nat) : Except String AppState :=
  match s.tickets.find? (fun t => t.id == tid) with
  | none => .error "404"
  | some t =>
    let author := let a := strip (author?.getD ""); if a = "" then "user" else a
    match filename? with
    | none => .error "flash file required"
    | some fname =>
      if fname = "" then .error "flash file required"
      else
        let safe_name := secure_filename fname
        let leaf := uuidHex s.uuidCtr ++ "__" ++ (if safe_name = "" then "file" else safe_name)
        let save_path := FILES_DIR ++ "/" ++ Nat.repr t.id ++ "/" ++ leaf
        let ts := s.now + 1
        let att : Attachment := ⟨s.nextAttachmentId, t.id, safe_name, save_path, size, ts⟩
        let s1 : AppState :=
          { s with attachments := s.attachments ++ [att],
                   nextAttachmentId := s.nextAttachmentId + 1,
                   uuidCtr := s.uuidCtr + 1, now := ts }
        .ok (add_event s1 t.id author "attach" none (some safe_name))

/-- The handler `download_file` (app.py lines 319-324): look the attachment up by primary
key and serve its stored bytes under its original filename.  Returns the
stored-location reference and the download name; the on-disk `isfile` check
is a filesystem concern outside this model. -/
def download_file (s : AppState) (aid : Nat) : Option (String × String) :=
  match s.attachments.find? (fun a => a.id == aid) with
  | none => none
  | some a => some (a.stored_path, a.filename)

/-- The audit trail of one ticket in chronological (insertion) order: the
rows of the `events` table carrying its foreign key. -/
def chron (s : AppState) (tid : Nat) : List Event :=
  s.events.filter fun e => e.ticket_id == tid

/-- Apply one recorded transition to a (status, assignee) pair: a `status`
Event moves the status to its recorded new value, an `assignee` Event moves
the assignee, every other action kind (created, comment, attach, priority)
leaves the pair unchanged. -/
def applyEvent (st : String × Option String) (e : Event) : String × Option String :=
  match e.action with
  | "status" => (e.to_value.getD st.1, st.2)
  | "assignee" => (st.1, e.to_value)
  | _ => st

/-- Replay an audit trail forward from the state the creation operation
establishes: status `open`, no assignee. -/
def replay (evs : List Event) : String × Option String :=
  evs.foldl applyEvent ("open", none)

/-- The detail page's history query (app.py line 273): the ticket's events
ordered by `created_at` descending, most recent first. -/
def eventsDesc (s : AppState) (tid : Nat) : List Event :=
  (chron s tid).mergeSort fun a b => b.created_at ≤ a.created_at

/-- The states reachable from the empty store through the public mutating
operations.  The parameter `P` restricts which status submissions the
update operation is exercised with (`fun x => True` places no restriction). -/
inductive Reach (P : Option String → Prop) : AppState → Prop where
  | init : Reach P s0
  | create (s s' : AppState) (title content requester : String)
      (priority? : Option String) : Reach P s →
      new_ticket s title content requester priority? = .ok s' → Reach P s'
  | update (s s' : AppState) (tid : Nat)
      (actor? status? assignee? priority? : Option String) : Reach P s →
      P status? →
      ticket_detail_post s tid actor? status? assignee? priority? = .ok s' →
      Reach P s'
  | comment (s s' : AppState) (tid : Nat) (author? body? : Option String) :
      Reach P s → add_comment s tid author? body? = .ok s' → Reach P s'
  | attach (s s' : AppState) (tid : Nat) (author? filename? : Option String)
      (size : Nat) : Reach P s →
      upload_attach s tid author? filename? size = .ok s' → Reach P s'

/-- The inductive invariant of the application state: the audit trail of
every ticket replays to the ticket's current status and assignee, ticket ids
are unique and below the auto-increment counter, event foreign keys point
below the counter, event timestamps are strictly increasing in insertion
order and bounded by the clock, ticket timestamps are bounded by the clock,
and status and priority are never the empty string. -/
structure Inv (s : AppState) : Prop where
  replay_ok : ∀ t ∈ s.tickets, replay (chron s t.id) = (t.status, t.assignee)
  tid_lt : ∀ t ∈ s.tickets, t.id < s.nextTicketId
  tid_nodup : (s.tickets.map Ticket.id).Nodup
  ev_tid_lt : ∀ e ∈ s.events, e.ticket_id < s.nextTicketId
  ev_sorted : s.events.Pairwise fun a b => a.created_at < b.created_at
  ev_le_now : ∀ e ∈ s.events, e.created_at ≤ s.now
  t_le_now : ∀ t ∈ s.tickets, t.updated_at ≤ s.now
  t_nonempty : ∀ t ∈ s.tickets, t.status ≠ "" ∧ t.priority ≠ ""

/-- The facts carried through the three field blocks of the update handler:
`p` is the (store, mutated ticket object, changed flag) triple, `s` and `t`
the store and ticket the handler started from, `tid` the looked-up id. -/
structure MidInv (s : AppState) (tid : Nat) (t : Ticket)
    (p : AppState × Ticket × Bool) : Prop where
  tickets_eq : p.1.tickets = s.tickets
  next_eq : p.1.nextTicketId = s.nextTicketId
  now_ge : s.now ≤ p.1.now
  chron_other : ∀ tid', tid' ≠ tid → chron p.1 tid' = chron s tid'
  replay_mid : replay (chron p.1 tid) = (p.2.1.status, p.2.1.assignee)
  ev_tid : ∀ e ∈ p.1.events, e.ticket_id = tid ∨ e ∈ s.events
  ev_sorted : p.1.events.Pairwise fun a b => a.created_at < b.created_at
  ev_le_now : ∀ e ∈ p.1.events, e.created_at ≤ p.1.now
  id_eq : p.2.1.id = tid
  updated_eq : p.2.1.updated_at = t.updated_at
  nonempty : p.2.1.status ≠ "" ∧ p.2.1.priority ≠ ""
  unchanged : p.2.2 = false → p = (s, t, false)

/-- Restriction on update submissions matching the UI: the status select of
the detail page only ever posts one of the `STATUS_CHOICES` values (or the
field is absent / empty). -/
def validStatusSubmission (st : Option String) : Prop :=
  ∀ v, st = some v → v = "" ∨ v ∈ STATUS_CHOICES.map Prod.fst

/-- Example state: the store after `new_ticket s0 "Printer broken" "HP on 3F"
"alice" (some "high")`. -/
def exS1 : AppState :=
  ⟨[⟨1, "Printer broken", "HP on 3F", "alice", none, "high", "open", 1, 1⟩],
   [], [],
   [⟨1, 1, "alice", "created", none, none, 2⟩],
   2, 1, 1, 2, 0, 2⟩

/-- Example state: `exS1` after an update by bob posting status `prog` and
assignee `alice`. -/
def exS2 : AppState :=
  ⟨[⟨1, "Printer broken", "HP on 3F", "alice", some "alice", "high", "prog", 1, 5⟩],
   [], [],
   [⟨1, 1, "alice", "created", none, none, 2⟩,
    ⟨2, 1, "bob", "status", some "open", some "prog", 3⟩,
    ⟨3, 1, "bob", "assignee", some "", some "alice", 4⟩],
   2, 1, 1, 4, 0, 5⟩

/-- Example state: `exS1` after bob posts the comment `hello`. -/
def exS3 : AppState :=
  ⟨[⟨1, "Printer broken", "HP on 3F", "alice", none, "high", "open", 1, 1⟩],
   [⟨1, 1, "bob", "hello", 3⟩], [],
   [⟨1, 1, "alice", "created", none, none, 2⟩,
    ⟨2, 1, "bob", "comment", none, none, 4⟩],
   2, 2, 1, 3, 0, 4⟩

/-- Example state: `exS1` after an update posting the out-of-vocabulary
status `zebra`. -/
def exZ : AppState :=
  ⟨[⟨1, "Printer broken", "HP on 3F", "alice", none, "high", "zebra", 1, 4⟩],
   [], [],
   [⟨1, 1, "alice", "created", none, none, 2⟩,
    ⟨2, 1, "user", "status", some "open", some "zebra", 3⟩],
   2, 1, 1, 3, 0, 4⟩

/-- Example state: `exS1` after bob uploads `report.pdf` (10 bytes). -/
def exA1 : AppState :=
  ⟨[⟨1, "Printer broken", "HP on 3F", "alice", none, "high", "open", 1, 1⟩],
   [],
   [⟨1, 1, "report.pdf", "/data/files/1/u__report.pdf", 10, 3⟩],
   [⟨1, 1, "alice", "created", none, none, 2⟩,
    ⟨2, 1, "bob", "attach", none, some "report.pdf", 4⟩],
   2, 1, 2, 3, 1, 4⟩

/-- Example state: `exA1` after carol uploads a second `report.pdf`
(20 bytes). -/
def exA2 : AppState :=
  ⟨[⟨1, "Printer broken", "HP on 3F", "alice", none, "high", "open", 1, 1⟩],
   [],
   [⟨1, 1, "report.pdf", "/data/files/1/u__report.pdf", 10, 3⟩,
    ⟨2, 1, "report.pdf", "/data/files/1/uu__report.pdf", 20, 5⟩],
   [⟨1, 1, "alice", "created", none, none, 2⟩,
    ⟨2, 1, "bob", "attach", none, some "report.pdf", 4⟩,
    ⟨3, 1, "carol", "attach", none, some "report.pdf", 6⟩],
   2, 1, 3, 4, 2, 6⟩

end App

namespace Schema

theorem mem_colNames_addColIfMissing (tb : Table) (c : Column) :
    c.name ∈ colNames (addColIfMissing tb c).1 := by
  unfold addColIfMissing
  split
  · simpa using by assumption
  · simp [colNames, addColumn]

theorem mem_colNames_addColIfMissing_mono (tb : Table) (c : Column)
    (n : String) (h : n ∈ colNames tb) :
    n ∈ colNames (addColIfMissing tb c).1 := by
  unfold addColIfMissing
  split
  · simpa using h
  · simp [colNames, addColumn] at h ⊢
    exact Or.inl h

theorem mem_colNames_addMissing_mono (cs : List Column) (tb : Table)
    (n : String) (h : n ∈ colNames tb) :
    n ∈ colNames (addMissing tb cs).1 := by
  induction cs generalizing tb with
  | nil => simpa [addMissing] using h
  | cons c cs ih =>
    have h1 : n ∈ colNames (addColIfMissing tb c).1 :=
      mem_colNames_addColIfMissing_mono tb c n h
    simpa [addMissing] using ih (addColIfMissing tb c).1 h1

theorem mem_colNames_addMissing (cs : List Column) (tb : Table)
    (c : Column) (hc : c ∈ cs) :
    c.name ∈ colNames (addMissing tb cs).1 := by
  induction cs generalizing tb with
  | nil => cases hc
  | cons d cs ih =>
    rcases List.mem_cons.mp hc with hc | hc
    · subst hc
      have h1 : c.name ∈ colNames (addColIfMissing tb c).1 :=
        mem_colNames_addColIfMissing tb c
      simpa [addMissing] using
        mem_colNames_addMissing_mono cs (addColIfMissing tb c).1 c.name h1
    · simpa [addMissing] using ih (addColIfMissing tb d).1 hc

theorem addMissing_of_all_present (cs : List Column) (tb : Table)
    (h : ∀ c ∈ cs, c.name ∈ colNames tb) :
    addMissing tb cs = (tb, 0) := by
  induction cs with
  | nil => simp [addMissing]
  | cons c cs ih =>
    have hc : addColIfMissing tb c = (tb, 0) := by
      unfold addColIfMissing
      simp [h c (by simp)]
    simp [addMissing, hc, ih (fun d hd => h d (by simp [hd]))]

/-- C1: the schema reconciler is idempotent — on the store left behind by one
run of `ensure_schema`, a second run returns exactly the same store and
performs zero structural changes (no table created, no column added). -/
theorem ensure_schema_idempotent (s : Store) :
    ensureSchemaCount (ensure_schema s) = (ensure_schema s, 0) := by
  simp only [ensure_schema, ensureSchemaCount, createIfNotExists]
  rw [addMissing_of_all_present need_cols _
      (fun c hc => mem_colNames_addMissing need_cols _ c hc)]
  simp

/-- C3: backfill correctness — on a store holding only the legacy `tickets`
table (columns id, title, requester) with existing rows, one run of the
reconciler keeps every row, keeps the legacy columns unaltered in place, and
every pre-existing row reads the new columns as their declared defaults
(priority `med`, status `open`) or as NULL (content, assignee, created_at,
updated_at). -/
theorem ensure_schema_backfill (rs : List (List (Option String)))
    (i ti rq : Option String) :
    (ensure_schema (legacyStore rs)).tickets =
      some ⟨legacyTicketsCols ++ need_cols,
            rs.map (fun r =>
              r ++ [none, none, some "med", some "open", none, none])⟩ ∧
    (let tb : Table :=
      ⟨legacyTicketsCols ++ need_cols,
       rs.map (fun r => r ++ [none, none, some "med", some "open", none, none])⟩
     let r : List (Option String) :=
      [i, ti, rq] ++ [none, none, some "med", some "open", none, none]
     rowVal tb r "id" = i ∧ rowVal tb r "title" = ti ∧
     rowVal tb r "requester" = rq ∧
     rowVal tb r "priority" = some "med" ∧ rowVal tb r "status" = some "open" ∧
     rowVal tb r "content" = none ∧ rowVal tb r "assignee" = none ∧
     rowVal tb r "created_at" = none ∧ rowVal tb r "updated_at" = none) := by
  constructor
  · simp [ensure_schema, ensureSchemaCount, legacyStore, createIfNotExists,
          addMissing, addColIfMissing, addColumn, colNames, legacyTicketsCols,
          need_cols, List.map_map, Function.comp_def]
  · simp [rowVal, legacyTicketsCols, need_cols, List.findIdx?]

end Schema

namespace App

theorem chron_add_event_self (s : AppState) (tid : Nat) (a act : String)
    (fv tv : Option String) :
    chron (add_event s tid a act fv tv) tid
      = chron s tid ++ [⟨s.nextEventId, tid, a, act, fv, tv, s.now + 1⟩] := by
  simp [chron, add_event, List.filter_append]

theorem chron_add_event_other (s : AppState) {tid tid' : Nat} (h : tid' ≠ tid)
    (a act : String) (fv tv : Option String) :
    chron (add_event s tid a act fv tv) tid' = chron s tid' := by
  simp [chron, add_event, List.filter_append, Ne.symm h]

theorem replay_append (l1 l2 : List Event) :
    replay (l1 ++ l2) = l2.foldl applyEvent (replay l1) := by
  simp [replay, List.foldl_append]

theorem chron_sublist (s : AppState) (tid : Nat) :
    (chron s tid).Sublist s.events :=
  List.filter_sublist s.events

/-- Uniqueness of primary-key lookup: two tickets of a table whose id column
has no duplicates and which share an id are the same row. -/
theorem eq_of_mem_of_id_eq {l : List Ticket}
    (h : (l.map Ticket.id).Nodup) {u v : Ticket}
    (hu : u ∈ l) (hv : v ∈ l) (hid : u.id = v.id) : u = v :=
  List.inj_on_of_nodup_map h hu hv hid

/-- Appending a fresh event (timestamp `now + 1`, foreign key `tid`)
preserves the mid-update facts about the store, provided the mutated ticket
fields are adjusted consistently; shared shape of the three step lemmas. -/
theorem MidInv.add_event_aux (s : AppState) (tid : Nat) (t : Ticket)
    (p : AppState × Ticket × Bool) (h : MidInv s tid t p)
    (a act : String) (fv tv : Option String) (t' : Ticket)
    (hid : t'.id = tid) (hupd : t'.updated_at = p.2.1.updated_at)
    (hne : t'.status ≠ "" ∧ t'.priority ≠ "")
    (hrep : applyEvent (p.2.1.status, p.2.1.assignee)
        ⟨p.1.nextEventId, tid, a, act, fv, tv, p.1.now + 1⟩
      = (t'.status, t'.assignee)) :
    MidInv s tid t (add_event p.1 tid a act fv tv, t', true) where
  tickets_eq := by simp [add_event, h.tickets_eq]
  next_eq := by simp [add_event, h.next_eq]
  now_ge := le_trans h.now_ge (by simp [add_event])
  chron_other := fun tid' hne' => by
    rw [chron_add_event_other _ hne', h.chron_other tid' hne']
  replay_mid := by
    rw [chron_add_event_self, replay_append]
    simp [h.replay_mid, hrep]
  ev_tid := fun e he => by
    simp only [add_event, List.mem_append, List.mem_singleton] at he
    rcases he with he | he
    · exact h.ev_tid e he
    · subst he; exact Or.inl rfl
  ev_sorted := by
    simp only [add_event]
    rw [List.pairwise_append]
    refine ⟨h.ev_sorted, by simp, ?_⟩
    intro x hx y hy
    simp only [List.mem_singleton] at hy
    subst hy
    exact Nat.lt_succ_of_le (h.ev_le_now x hx)
  ev_le_now := fun e he => by
    simp only [add_event, List.mem_append, List.mem_singleton] at he
    rcases he with he | he
    · simpa [add_event] using Nat.le_succ_of_le (h.ev_le_now e he)
    · subst he; simp [add_event]
  id_eq := hid
  updated_eq := by rw [hupd, h.updated_eq]
  nonempty := hne
  unchanged := by intro hc; cases hc

theorem upd_status_mid (s : AppState) (tid : Nat) (t : Ticket) (actor : String)
    (status? : Option String) (p : AppState × Ticket × Bool)
    (h : MidInv s tid t p) : MidInv s tid t (upd_status actor status? p) := by
  unfold upd_status
  match status? with
  | none => exact h
  | some ns =>
    by_cases hc : ns ≠ "" ∧ ns ≠ p.2.1.status
    · simp only [if_pos hc]
      rw [show p.2.1.id = tid from h.id_eq]
      exact h.add_event_aux _ _ _ _ _ _ _ _ _ rfl rfl
        ⟨hc.1, h.nonempty.2⟩ (by simp [applyEvent])
    · simp only [if_neg hc]
      exact h

theorem upd_assignee_mid (s : AppState) (tid : Nat) (t : Ticket) (actor : String)
    (assignee? : Option String) (p : AppState × Ticket × Bool)
    (h : MidInv s tid t p) : MidInv s tid t (upd_assignee actor assignee? p) := by
  unfold upd_assignee
  match assignee? with
  | none => exact h
  | some na =>
    by_cases hc : na ≠ (p.2.1.assignee.getD "")
    · simp only [if_pos hc]
      rw [show p.2.1.id = tid from h.id_eq]
      exact h.add_event_aux _ _ _ _ _ _ _ _ _ rfl rfl
        ⟨h.nonempty.1, h.nonempty.2⟩ (by simp [applyEvent])
    · simp only [if_neg hc]
      exact h

theorem upd_priority_mid (s : AppState) (tid : Nat) (t : Ticket) (actor : String)
    (priority? : Option String) (p : AppState × Ticket × Bool)
    (h : MidInv s tid t p) : MidInv s tid t (upd_priority actor priority? p) := by
  unfold upd_priority
  match priority? with
  | none => exact h
  | some np =>
    by_cases hc : np ≠ "" ∧ np ≠ p.2.1.priority
    · simp only [if_pos hc]
      rw [show p.2.1.id = tid from h.id_eq]
      exact h.add_event_aux _ _ _ _ _ _ _ _ _ rfl rfl
        ⟨h.nonempty.1, hc.1⟩ (by simp [applyEvent])
    · simp only [if_neg hc]
      exact h

theorem find?_ticket_mem {s : AppState} {tid : Nat} {t : Ticket}
    (h : s.tickets.find? (fun u => u.id == tid) = some t) :
    t ∈ s.tickets ∧ t.id = tid :=
  ⟨List.mem_of_find?_eq_some h, by simpa using List.find?_some h⟩

/-- Filtering the events table for a foreign key no event carries yet gives
the empty audit trail. -/
theorem chron_eq_nil_of_lt {s : AppState} {tid : Nat}
    (h : ∀ e ∈ s.events, e.ticket_id < tid) : chron s tid = [] := by
  rw [chron, List.filter_eq_nil_iff]
  intro e he
  simpa using Nat.ne_of_lt (h e he)

theorem inv_s0 : Inv s0 := by
  constructor <;> simp [s0]

theorem applyEvent_other {st : String × Option String} {e : Event}
    (h1 : e.action ≠ "status") (h2 : e.action ≠ "assignee") :
    applyEvent st e = st := by
  unfold applyEvent
  split
  · exact absurd (by assumption) h1
  · exact absurd (by assumption) h2
  · rfl

/-- Appending an audit event whose action kind is neither `status` nor
`assignee`, for an existing ticket id, preserves the invariant. -/
theorem inv_add_event (s : AppState) (tid : Nat) (a act : String)
    (fv tv : Option String) (hact : act ≠ "status" ∧ act ≠ "assignee")
    (htid : tid < s.nextTicketId) (hs : Inv s) :
    Inv (add_event s tid a act fv tv) where
  replay_ok := fun t ht => by
    have ht' : t ∈ s.tickets := by simpa [add_event] using ht
    by_cases hid : t.id = tid
    · rw [hid, chron_add_event_self, replay_append]
      simp only [List.foldl_cons, List.foldl_nil]
      rw [applyEvent_other hact.1 hact.2, ← hid, hs.replay_ok t ht']
    · rw [chron_add_event_other _ hid, hs.replay_ok t ht']
  tid_lt := fun t ht => by
    have ht' : t ∈ s.tickets := by simpa [add_event] using ht
    simpa [add_event] using hs.tid_lt t ht'
  tid_nodup := by simpa [add_event] using hs.tid_nodup
  ev_tid_lt := fun e he => by
    simp only [add_event, List.mem_append, List.mem_singleton] at he
    rcases he with he | he
    · simpa [add_event] using hs.ev_tid_lt e he
    · subst he; simpa [add_event] using htid
  ev_sorted := by
    simp only [add_event]
    rw [List.pairwise_append]
    refine ⟨hs.ev_sorted, by simp, ?_⟩
    intro x hx y hy
    simp only [List.mem_singleton] at hy
    subst hy
    exact Nat.lt_succ_of_le (hs.ev_le_now x hx)
  ev_le_now := fun e he => by
    simp only [add_event, List.mem_append, List.mem_singleton] at he
    rcases he with he | he
    · simp only [add_event]
      exact Nat.le_succ_of_le (hs.ev_le_now e he)
    · subst he; simp [add_event]
  t_le_now := fun t ht => by
    have ht' : t ∈ s.tickets := by simpa [add_event] using ht
    simp only [add_event]
    exact Nat.le_succ_of_le (hs.t_le_now t ht')
  t_nonempty := fun t ht => by
    have ht' : t ∈ s.tickets := by simpa [add_event] using ht
    exact hs.t_nonempty t ht'

/-- Inserting a fresh ticket row (id drawn from the auto-increment counter,
status `open`, no assignee, timestamps at the new clock tick) preserves the
invariant. -/
theorem inv_insert_ticket (s : AppState) (t : Ticket)
    (hid : t.id = s.nextTicketId) (hst : t.status = "open")
    (hassign : t.assignee = none) (hpr : t.priority ≠ "")
    (hupd : t.updated_at ≤ s.now + 1) (hs : Inv s) :
    Inv { s with
          tickets := s.tickets ++ [t],
          nextTicketId := s.nextTicketId + 1,
          now := s.now + 1 } where
  replay_ok := fun u hu => by
    simp only [List.mem_append, List.mem_singleton] at hu
    rcases hu with hu | hu
    · exact hs.replay_ok u hu
    · subst hu
      have : chron { s with
          tickets := s.tickets ++ [u],
          nextTicketId := s.nextTicketId + 1,
          now := s.now + 1 } u.id = [] := by
        apply chron_eq_nil_of_lt
        intro e he
        rw [hid]
        exact hs.ev_tid_lt e he
      rw [this, hst, hassign]
      rfl
  tid_lt := fun u hu => by
    simp only [List.mem_append, List.mem_singleton] at hu
    rcases hu with hu | hu
    · exact Nat.lt_succ_of_lt (hs.tid_lt u hu)
    · subst hu; simpa [hid] using Nat.lt_succ_self s.nextTicketId
  tid_nodup := by
    simp only [List.map_append, List.map_cons, List.map_nil]
    rw [List.nodup_append]
    refine ⟨hs.tid_nodup, by simp, ?_⟩
    intro a ha hb
    simp only [List.mem_singleton] at hb
    rcases List.mem_map.mp ha with ⟨u, hu, huid⟩
    have := hs.tid_lt u hu
    omega
  ev_tid_lt := fun e he => Nat.lt_succ_of_lt (hs.ev_tid_lt e he)
  ev_sorted := hs.ev_sorted
  ev_le_now := fun e he => Nat.le_succ_of_le (hs.ev_le_now e he)
  t_le_now := fun u hu => by
    simp only [List.mem_append, List.mem_singleton] at hu
    rcases hu with hu | hu
    · exact Nat.le_succ_of_le (hs.t_le_now u hu)
    · subst hu; exact hupd
  t_nonempty := fun u hu => by
    simp only [List.mem_append, List.mem_singleton] at hu
    rcases hu with hu | hu
    · exact hs.t_nonempty u hu
    · subst hu; exact ⟨by rw [hst]; simp, hpr⟩

/-- Rewriting the comment and attachment tables and their counters, and
advancing the clock, preserves the invariant: none of its clauses mention
those tables. -/
theorem inv_aux_bump (s : AppState) (cs : List Comment) (as_ : List Attachment)
    (nc na nu : Nat) (k : Nat) (hs : Inv s) :
    Inv { s with
          comments := cs,
          attachments := as_,
          nextCommentId := nc,
          nextAttachmentId := na,
          uuidCtr := nu,
          now := s.now + k } where
  replay_ok := fun t ht => hs.replay_ok t ht
  tid_lt := fun t ht => hs.tid_lt t ht
  tid_nodup := hs.tid_nodup
  ev_tid_lt := fun e he => hs.ev_tid_lt e he
  ev_sorted := hs.ev_sorted
  ev_le_now := fun e he => Nat.le_add_right_of_le (hs.ev_le_now e he)
  t_le_now := fun t ht => Nat.le_add_right_of_le (hs.t_le_now t ht)
  t_nonempty := fun t ht => hs.t_nonempty t ht

theorem inv_create (s s' : AppState) (title content requester : String)
    (priority? : Option String) (hs : Inv s)
    (h : new_ticket s title content requester priority? = .ok s') : Inv s' := by
  simp only [new_ticket] at h
  split at h
  · cases h
  · rw [Except.ok.injEq] at h
    subst h
    have hprne : (let p := strip (priority?.getD "med");
        if p = "" then "med" else p) ≠ "" := by
      simp only []
      split
      · simp
      · assumption
    refine inv_add_event _ _ _ _ _ _ (by simp) ?_
      (inv_insert_ticket s _ rfl rfl rfl hprne (le_refl _) hs)
    simpa using Nat.lt_succ_self s.nextTicketId

theorem inv_comment (s s' : AppState) (tid : Nat) (author? body? : Option String)
    (hs : Inv s) (h : add_comment s tid author? body? = .ok s') : Inv s' := by
  simp only [add_comment] at h
  split at h
  · cases h
  case _ t hfind =>
    obtain ⟨hmem, hid⟩ := find?_ticket_mem hfind
    split at h
    · cases h
    · rw [Except.ok.injEq] at h
      subst h
      refine inv_add_event _ _ _ _ _ _ (by simp) ?_ ?_
      · simpa [hid] using hs.tid_lt t hmem
      · exact inv_aux_bump s _ s.attachments _ s.nextAttachmentId s.uuidCtr 1 hs

theorem inv_attach (s s' : AppState) (tid : Nat)
    (author? filename? : Option String) (size : Nat) (hs : Inv s)
    (h : upload_attach s tid author? filename? size = .ok s') : Inv s' := by
  simp only [upload_attach] at h
  split at h
  · cases h
  case _ t hfind =>
    obtain ⟨hmem, hid⟩ := find?_ticket_mem hfind
    split at h
    · cases h
    · split at h
      · cases h
      · rw [Except.ok.injEq] at h
        subst h
        refine inv_add_event _ _ _ _ _ _ (by simp) ?_ ?_
        · simpa [hid] using hs.tid_lt t hmem
        · exact inv_aux_bump s s.comments _ s.nextCommentId _ (s.uuidCtr + 1) 1 hs

/-- Committing the mutated ticket object back into the tickets table (as the
final `db.session.commit()` of the update handler does, stamping
`updated_at`) re-establishes the invariant from the mid-update facts. -/
theorem inv_commit (s : AppState) (tid : Nat) (t : Ticket)
    (p : AppState × Ticket × Bool) (hs : Inv s) (hmem : t ∈ s.tickets)
    (hid : t.id = tid) (hmid : MidInv s tid t p) :
    Inv { p.1 with
          tickets := p.1.tickets.map fun u =>
            if u.id == tid then { p.2.1 with updated_at := p.1.now + 1 } else u,
          now := p.1.now + 1 } := by
  have hmap : ∀ u ∈ s.tickets,
      (if u.id == tid then { p.2.1 with updated_at := p.1.now + 1 } else u).id
        = u.id := by
    intro u hu
    by_cases hb : u.id = tid
    · simp [hb, hmid.id_eq]
    · simp [hb]
  refine ⟨?_, ?_, ?_, ?_, ?_, ?_, ?_, ?_⟩
  · intro u hu
    simp only [hmid.tickets_eq, List.mem_map] at hu
    obtain ⟨v, hv, hfv⟩ := hu
    by_cases hb : v.id = tid
    · have hveq : v = t := eq_of_mem_of_id_eq hs.tid_nodup hv hmem (by rw [hb, hid])
      simp only [hb, beq_self_eq_true, if_true] at hfv
      subst hfv
      show replay (chron p.1 _) = _
      have : ({ p.2.1 with updated_at := p.1.now + 1 } : Ticket).id = tid :=
        hmid.id_eq
      rw [this]
      exact hmid.replay_mid
    · have hbeq : (v.id == tid) = false := by simpa using hb
      simp only [hbeq, Bool.false_eq_true, if_false] at hfv
      subst hfv
      show replay (chron p.1 v.id) = _
      rw [hmid.chron_other v.id hb]
      exact hs.replay_ok v hv
  · intro u hu
    simp only [hmid.tickets_eq, List.mem_map] at hu
    obtain ⟨v, hv, hfv⟩ := hu
    show u.id < p.1.nextTicketId
    rw [hmid.next_eq, ← hfv, hmap v hv]
    exact hs.tid_lt v hv
  · show (List.map Ticket.id (p.1.tickets.map _)).Nodup
    rw [hmid.tickets_eq, List.map_map]
    have : (s.tickets.map fun u => (Ticket.id
        (if u.id == tid then { p.2.1 with updated_at := p.1.now + 1 } else u)))
        = s.tickets.map Ticket.id :=
      List.map_congr_left fun u hu => hmap u hu
    rw [show ((Ticket.id ∘ fun u =>
        if u.id == tid then { p.2.1 with updated_at := p.1.now + 1 } else u)
        = fun u => Ticket.id
          (if u.id == tid then { p.2.1 with updated_at := p.1.now + 1 } else u))
      from rfl, this]
    exact hs.tid_nodup
  · intro e he
    show e.ticket_id < p.1.nextTicketId
    rcases hmid.ev_tid e he with h1 | h1
    · rw [h1, hmid.next_eq, ← hid]
      exact hs.tid_lt t hmem
    · rw [hmid.next_eq]
      exact hs.ev_tid_lt e h1
  · exact hmid.ev_sorted
  · intro e he
    exact Nat.le_succ_of_le (hmid.ev_le_now e he)
  · intro u hu
    simp only [hmid.tickets_eq, List.mem_map] at hu
    obtain ⟨v, hv, hfv⟩ := hu
    by_cases hb : v.id = tid
    · simp only [hb, beq_self_eq_true, if_true] at hfv
      subst hfv
      exact le_refl _
    · have hbeq : (v.id == tid) = false := by simpa using hb
      simp only [hbeq, Bool.false_eq_true, if_false] at hfv
      subst hfv
      exact le_trans (hs.t_le_now v hv) (Nat.le_succ_of_le hmid.now_ge)
  · intro u hu
    simp only [hmid.tickets_eq, List.mem_map] at hu
    obtain ⟨v, hv, hfv⟩ := hu
    by_cases hb : v.id = tid
    · simp only [hb, beq_self_eq_true, if_true] at hfv
      subst hfv
      exact hmid.nonempty
    · have hbeq : (v.id == tid) = false := by simpa using hb
      simp only [hbeq, Bool.false_eq_true, if_false] at hfv
      subst hfv
      exact hs.t_nonempty v hv

theorem inv_update (s s' : AppState) (tid : Nat)
    (actor? status? assignee? priority? : Option String) (hs : Inv s)
    (h : ticket_detail_post s tid actor? status? assignee? priority? = .ok s') :
    Inv s' := by
  simp only [ticket_detail_post] at h
  split at h
  · cases h
  case _ t hfind =>
    obtain ⟨hmem, hid⟩ := find?_ticket_mem hfind
    have hmid0 : MidInv s tid t (s, t, false) :=
      { tickets_eq := rfl
        next_eq := rfl
        now_ge := le_refl _
        chron_other := fun _ _ => rfl
        replay_mid := by rw [← hid]; exact hs.replay_ok t hmem
        ev_tid := fun e he => Or.inr he
        ev_sorted := hs.ev_sorted
        ev_le_now := hs.ev_le_now
        id_eq := hid
        updated_eq := rfl
        nonempty := hs.t_nonempty t hmem
        unchanged := fun _ => rfl }
    have hmid := upd_priority_mid s tid t (actor?.getD "user") priority? _
      (upd_assignee_mid s tid t (actor?.getD "user") assignee? _
        (upd_status_mid s tid t (actor?.getD "user") status? _ hmid0))
    split at h
    · rw [Except.ok.injEq] at h
      subst h
      exact inv_commit s tid t _ hs hmem hid hmid
    case _ hcond =>
      rw [Except.ok.injEq] at h
      subst h
      have hb : (upd_priority (actor?.getD "user") priority?
          (upd_assignee (actor?.getD "user") assignee?
            (upd_status (actor?.getD "user") status? (s, t, false)))).2.2
          = false := by
        simpa using hcond
      rw [hmid.unchanged hb]
      exact hs

/-- Every reachable state satisfies the invariant, whatever restriction the
update steps were exercised under. -/
theorem reach_inv (P : Option String → Prop) (s : AppState) (h : Reach P s) :
    Inv s := by
  induction h with
  | init => exact inv_s0
  | create s s' ti co rq pr hr hok ih => exact inv_create s s' ti co rq pr ih hok
  | update s s' tid a st asg pr hr hP hok ih =>
      exact inv_update s s' tid a st asg pr ih hok
  | comment s s' tid au bo hr hok ih => exact inv_comment s s' tid au bo ih hok
  | attach s s' tid au fn sz hr hok ih => exact inv_attach s s' tid au fn sz ih hok

/-- Under the invariant, the history query (order by `created_at`
descending) returns exactly the reversal of the chronological audit trail. -/
theorem eventsDesc_eq_reverse (s : AppState) (tid : Nat) (hs : Inv s) :
    eventsDesc s tid = (chron s tid).reverse := by
  have hsorted : (chron s tid).Pairwise fun a b => a.created_at < b.created_at :=
    hs.ev_sorted.sublist (chron_sublist s tid)
  have hperm1 : (eventsDesc s tid).Perm (chron s tid) :=
    List.mergeSort_perm (chron s tid) _
  have hne : (chron s tid).Pairwise fun a b => a.created_at ≠ b.created_at :=
    hsorted.imp fun h => Nat.ne_of_lt h
  have hne' : (eventsDesc s tid).Pairwise fun a b => a.created_at ≠ b.created_at := by
    rw [List.Perm.pairwise_iff (by intro a b hab; exact hab.symm) hperm1]
    exact hne
  have hle : (eventsDesc s tid).Pairwise
      fun a b => b.created_at ≤ a.created_at := by
    have := @List.sorted_mergeSort Event
      (fun a b : Event => b.created_at ≤ a.created_at)
      (fun a b c hab hbc => by
        simp only [decide_eq_true_eq] at hab hbc ⊢
        omega)
      (fun a b => by
        simp only [Bool.or_eq_true, decide_eq_true_eq]
        omega)
      (chron s tid)
    exact this.imp fun h => by simpa using h
  have hdesc : (eventsDesc s tid).Pairwise
      fun a b => b.created_at < a.created_at :=
    (hle.and hne').imp fun h => Nat.lt_of_le_of_ne h.1 (Ne.symm h.2)
  have hrevdesc : ((chron s tid).reverse).Pairwise
      fun a b => b.created_at < a.created_at := by
    rw [List.pairwise_reverse]
    exact hsorted
  haveI : IsAntisymm Event fun a b => b.created_at < a.created_at :=
    ⟨fun a b h1 h2 => absurd h1 (Nat.lt_asymm h2)⟩
  exact List.eq_of_perm_of_sorted
    (hperm1.trans (List.reverse_perm (chron s tid)).symm) hdesc hrevdesc

theorem exS1_ok :
    new_ticket s0 "Printer broken" "HP on 3F" "alice" (some "high") = .ok exS1 := by
  rfl

theorem exS2_ok :
    ticket_detail_post exS1 1 (some "bob") (some "prog") (some "alice") none
      = .ok exS2 := by
  rfl

theorem exS1_reach : Reach (fun _ => True) exS1 :=
  Reach.create s0 exS1 _ _ _ _ Reach.init exS1_ok

theorem exS2_reach : Reach (fun _ => True) exS2 :=
  Reach.update exS1 exS2 1 (some "bob") (some "prog") (some "alice") none
    exS1_reach trivial exS2_ok

/-- Shape of a successful ticket creation: validation passed, exactly one
ticket row (status `open`, clock-stamped) and one `created` Event appended. -/
theorem new_ticket_ok_shape (s s' : AppState) (title content requester : String)
    (priority? : Option String)
    (h : new_ticket s title content requester priority? = .ok s') :
    s'.tickets = s.tickets ++ [⟨s.nextTicketId, strip title, strip content,
      strip requester, none,
      (if strip (priority?.getD "med") = "" then "med"
       else strip (priority?.getD "med")),
      "open", s.now + 1, s.now + 1⟩] ∧
    s'.events = s.events ++ [⟨s.nextEventId, s.nextTicketId,
      (if strip requester = "" then "user" else strip requester),
      "created", none, none, s.now + 2⟩] ∧
    s'.comments = s.comments ∧ s'.attachments = s.attachments ∧
    strip title ≠ "" ∧ strip requester ≠ "" := by
  simp only [new_ticket] at h
  split at h
  · cases h
  case _ hcond =>
    rw [Except.ok.injEq] at h
    subst h
    push_neg at hcond
    refine ⟨by simp [add_event], by simp [add_event], by simp [add_event],
      by simp [add_event], hcond.1, hcond.2⟩

theorem add_comment_tickets_eq (s s' : AppState) (tid : Nat)
    (author? body? : Option String) (h : add_comment s tid author? body? = .ok s') :
    s'.tickets = s.tickets ∧ s'.attachments = s.attachments := by
  simp only [add_comment] at h
  split at h
  · cases h
  · split at h
    · cases h
    · rw [Except.ok.injEq] at h
      subst h
      exact ⟨by simp [add_event], by simp [add_event]⟩

theorem upload_attach_tickets_eq (s s' : AppState) (tid : Nat)
    (author? filename? : Option String) (size : Nat)
    (h : upload_attach s tid author? filename? size = .ok s') :
    s'.tickets = s.tickets ∧ s'.comments = s.comments := by
  simp only [upload_attach] at h
  split at h
  · cases h
  · split at h
    · cases h
    · split at h
      · cases h
      · rw [Except.ok.injEq] at h
        subst h
        exact ⟨by simp [add_event], by simp [add_event]⟩

/-- Primary-key lookup after the commit of the update handler: the written
ticket is found under the looked-up id. -/
theorem find?_map_commit (l : List Ticket) (tid : Nat) (t t3 : Ticket)
    (hfind : l.find? (fun u => u.id == tid) = some t) (hid3 : t3.id = tid) :
    (l.map fun u => if u.id == tid then t3 else u).find?
      (fun u => u.id == tid) = some t3 := by
  rw [List.find?_map]
  have hcomp : ((fun u : Ticket => u.id == tid) ∘ fun u : Ticket =>
      if u.id == tid then t3 else u)
      = fun u : Ticket => u.id == tid := by
    funext u
    by_cases hb : u.id = tid
    · simp [Function.comp, hb, hid3]
    · simp [Function.comp, hb]
  rw [hcomp, hfind]
  have ht : (t.id == tid) = true := by simpa using List.find?_some hfind
  simp [Option.map, ht]

theorem find?_append_of_none {α : Type} (p : α → Bool) (l1 l2 : List α)
    (h : ∀ a ∈ l1, p a = false) : (l1 ++ l2).find? p = l2.find? p := by
  rw [List.find?_append]
  have : l1.find? p = none := by
    rw [List.find?_eq_none]
    intro a ha
    simp [h a ha]
  rw [this, Option.none_or]

theorem uuidHex_length (n : Nat) : (uuidHex n).length = n + 1 := by
  show (List.replicate (n + 1) 'u').length = n + 1
  simp

theorem upd_assignee_keeps_status (a : String) (asg : Option String)
    (p : AppState × Ticket × Bool) :
    (upd_assignee a asg p).2.1.status = p.2.1.status := by
  rcases asg with _ | na
  · rfl
  · simp only [upd_assignee]
    split <;> rfl

theorem upd_priority_keeps_status (a : String) (pr : Option String)
    (p : AppState × Ticket × Bool) :
    (upd_priority a pr p).2.1.status = p.2.1.status := by
  rcases pr with _ | np
  · rfl
  · simp only [upd_priority]
    split <;> rfl

theorem upd_status_cases (a : String) (st : Option String)
    (p : AppState × Ticket × Bool) :
    (upd_status a st p).2.1.status = p.2.1.status ∨
    ∃ ns, st = some ns ∧ ns ≠ "" ∧ (upd_status a st p).2.1.status = ns := by
  rcases st with _ | ns
  · exact Or.inl rfl
  · by_cases hc : ns ≠ "" ∧ ns ≠ p.2.1.status
    · refine Or.inr ⟨ns, rfl, hc.1, ?_⟩
      simp only [upd_status, if_pos hc]
    · exact Or.inl (by simp only [upd_status, if_neg hc])

/-- C6: ticket creation fails with a validation error (writing no ticket row
and no Event) whenever the stripped title or requester is empty; on success
it appends exactly one ticket row carrying the given (stripped) fields with
priority defaulting to `med` when the form omits it and status `open`, and
exactly one `created` Event for that ticket. -/
theorem new_ticket_validation (s : AppState) (title content requester : String)
    (priority? : Option String) :
    ((strip title = "" ∨ strip requester = "") →
      new_ticket s title content requester priority?
        = .error "400 title/requester required") ∧
    (strip title ≠ "" → strip requester ≠ "" →
      ∃ s', new_ticket s title content requester priority? = .ok s' ∧
        s'.tickets = s.tickets ++ [⟨s.nextTicketId, strip title, strip content,
          strip requester, none,
          (if strip (priority?.getD "med") = "" then "med"
           else strip (priority?.getD "med")), "open", s.now + 1, s.now + 1⟩] ∧
        (priority? = none →
          s'.tickets.map Ticket.priority
            = s.tickets.map Ticket.priority ++ ["med"]) ∧
        s'.events = s.events ++ [⟨s.nextEventId, s.nextTicketId, strip requester,
          "created", none, none, s.now + 2⟩]) := by
  constructor
  · intro h
    simp only [new_ticket, if_pos h]
  · intro h1 h2
    have hcond : ¬(strip title = "" ∨ strip requester = "") := by
      push_neg
      exact ⟨h1, h2⟩
    refine ⟨add_event
      { s with
        tickets := s.tickets ++ [⟨s.nextTicketId, strip title, strip content,
          strip requester, none,
          (if strip (priority?.getD "med") = "" then "med"
           else strip (priority?.getD "med")), "open", s.now + 1, s.now + 1⟩],
        nextTicketId := s.nextTicketId + 1,
        now := s.now + 1 }
      s.nextTicketId (if strip requester = "" then "user" else strip requester)
      "created" none none, ?_, ?_, ?_, ?_⟩
    · simp only [new_ticket, if_neg hcond]
    · simp [add_event]
    · intro hnone
      subst hnone
      simp [add_event]
      exact fun _ => by decide
    · simp [add_event, h2]

/-- C6 witness: the concrete creation of the end-to-end scenario. -/
theorem new_ticket_validation_witness :
    ∃ s', new_ticket s0 "Printer broken" "HP on 3F" "alice" (some "high")
        = .ok s' ∧
      s'.tickets = s0.tickets ++ [⟨s0.nextTicketId, strip "Printer broken",
        strip "HP on 3F", strip "alice", none,
        (if strip ((some "high").getD "med") = "" then "med"
         else strip ((some "high").getD "med")), "open", s0.now + 1, s0.now + 1⟩] ∧
      (some "high" = none →
        s'.tickets.map Ticket.priority
          = s0.tickets.map Ticket.priority ++ ["med"]) ∧
      s'.events = s0.events ++ [⟨s0.nextEventId, s0.nextTicketId, strip "alice",
        "created", none, none, s0.now + 2⟩] :=
  (new_ticket_validation s0 "Printer broken" "HP on 3F" "alice"
    (some "high")).2 (by decide) (by decide)

/-- C2 (amended): for a NON-EMPTY submitted status, the update handler
detects changes exactly — a value equal to the current status leaves the
whole store untouched (zero new Events), a different value appends exactly
one `status` Event carrying the old and the new value and sets the ticket's
status to the new value.  (The original claim, quantifying over every
submitted status, fails at the empty string — see the counterexample.) -/
theorem update_status_change_detection (s : AppState) (tid : Nat) (t : Ticket)
    (hfind : s.tickets.find? (fun u => u.id == tid) = some t)
    (ns : String) (hns : ns ≠ "") :
    (ns = t.status → ticket_detail_post s tid none (some ns) none none = .ok s) ∧
    (ns ≠ t.status →
      ∃ s', ticket_detail_post s tid none (some ns) none none = .ok s' ∧
        s'.events = s.events ++ [⟨s.nextEventId, tid, "user", "status",
          some t.status, some ns, s.now + 1⟩] ∧
        (s'.tickets.find? (fun u => u.id == tid)).map Ticket.status
          = some ns) := by
  have hid : t.id = tid := (find?_ticket_mem hfind).2
  constructor
  · intro heq
    have hguard : ¬(ns ≠ "" ∧ ns ≠ t.status) := by
      push_neg
      intro _
      exact heq
    simp only [ticket_detail_post, hfind, upd_status, upd_assignee,
      upd_priority, if_neg hguard]
    rfl
  · intro hneq
    have hguard : ns ≠ "" ∧ ns ≠ t.status := ⟨hns, hneq⟩
    refine ⟨{ add_event s t.id "user" "status" (some t.status) (some ns) with
      tickets := s.tickets.map fun u =>
        if u.id == tid then { t with status := ns, updated_at := s.now + 2 }
        else u,
      now := s.now + 2 }, ?_, ?_, ?_⟩
    · simp only [ticket_detail_post, hfind, upd_status, upd_assignee,
        upd_priority, if_pos hguard]
      rfl
    · simp [add_event, hid]
    · show ((s.tickets.map fun u => if u.id == tid then _ else u).find?
        (fun u => u.id == tid)).map Ticket.status = some ns
      rw [find?_map_commit s.tickets tid t]
      · rfl
      · exact hfind
      · exact hid

/-- C2 counterexample: the claim as stated fails at the empty submitted
status — `exS1`'s ticket has status `open`, the submitted status `""` is
different from it, yet the update appends zero Events and leaves the whole
store (status included) unchanged, where the claim demands exactly one
Event and status `""`. -/
theorem update_status_change_detection_counterexample :
    ("" : String) ≠ "open" ∧
    exS1.tickets.map Ticket.status = ["open"] ∧
    ticket_detail_post exS1 1 none (some "") none none = .ok exS1 := by
  refine ⟨by decide, by decide, ?_⟩
  rfl

/-- C2 witness: a concrete changed-status run appending exactly one Event. -/
theorem update_status_change_detection_witness :
    ∃ s', ticket_detail_post exS1 1 none (some "prog") none none = .ok s' ∧
      s'.events = exS1.events ++ [⟨exS1.nextEventId, 1, "user", "status",
        some "open", some "prog", exS1.now + 1⟩] ∧
      (s'.tickets.find? (fun u => u.id == 1)).map Ticket.status
        = some "prog" :=
  (update_status_change_detection exS1 1
    ⟨1, "Printer broken", "HP on 3F", "alice", none, "high", "open", 1, 1⟩
    (by decide) "prog" (by decide)).2 (by decide)

/-- C5: empty string and NULL are the same "no assignee" state for change
detection — on a ticket whose assignee is unset, submitting assignee `""`
appends no Event and changes nothing at all, while submitting a non-empty
assignee appends exactly one `assignee` Event (recording `""` as the
previous value) and sets the assignee. -/
theorem assignee_empty_vs_unset (s : AppState) (tid : Nat) (t : Ticket)
    (hfind : s.tickets.find? (fun u => u.id == tid) = some t)
    (hunset : t.assignee = none) :
    (ticket_detail_post s tid none none (some "") none = .ok s) ∧
    (∀ na : String, na ≠ "" →
      ∃ s', ticket_detail_post s tid none none (some na) none = .ok s' ∧
        s'.events = s.events ++ [⟨s.nextEventId, tid, "user", "assignee",
          some "", some na, s.now + 1⟩] ∧
        (s'.tickets.find? (fun u => u.id == tid)).map Ticket.assignee
          = some (some na)) := by
  have hid : t.id = tid := (find?_ticket_mem hfind).2
  constructor
  · have hguard : ¬(("" : String) ≠ (t.assignee.getD "")) := by
      simp [hunset]
    simp only [ticket_detail_post, hfind, upd_status, upd_assignee,
      upd_priority, if_neg hguard]
    rfl
  · intro na hna
    have hguard : na ≠ (t.assignee.getD "") := by
      simp [hunset, hna]
    refine ⟨{ add_event s t.id "user" "assignee" (some (t.assignee.getD ""))
        (some na) with
      tickets := s.tickets.map fun u =>
        if u.id == tid then { t with assignee := some na, updated_at := s.now + 2 }
        else u,
      now := s.now + 2 }, ?_, ?_, ?_⟩
    · simp only [ticket_detail_post, hfind, upd_status, upd_assignee,
        upd_priority, if_pos hguard]
      rfl
    · simp [add_event, hid, hunset]
    · show ((s.tickets.map fun u => if u.id == tid then _ else u).find?
        (fun u => u.id == tid)).map Ticket.assignee = some (some na)
      rw [find?_map_commit s.tickets tid t]
      · rfl
      · exact hfind
      · exact hid

/-- C5 witness: on `exS1` (assignee unset) posting `""` is a no-op and
posting `alice` appends exactly one assignee Event. -/
theorem assignee_empty_vs_unset_witness :
    (ticket_detail_post exS1 1 none none (some "") none = .ok exS1) ∧
    (∃ s', ticket_detail_post exS1 1 none none (some "alice") none = .ok s' ∧
      s'.events = exS1.events ++ [⟨exS1.nextEventId, 1, "user", "assignee",
        some "", some "alice", exS1.now + 1⟩] ∧
      (s'.tickets.find? (fun u => u.id == 1)).map Ticket.assignee
        = some (some "alice")) := by
  have h := assignee_empty_vs_unset exS1 1
    ⟨1, "Printer broken", "HP on 3F", "alice", none, "high", "open", 1, 1⟩
    (by decide) rfl
  exact ⟨h.1, h.2 "alice" (by decide)⟩

/-- C10: in the update handler an empty submitted status or priority is
falsy and silently ignored (no Event, field unchanged, nothing committed),
whereas assignee CAN be cleared to the empty string — with an `assignee`
Event when it was previously non-empty — and consequently no reachable
ticket ever has an empty status or priority. -/
theorem empty_status_priority_ignored (s : AppState) (tid : Nat) (t : Ticket)
    (hfind : s.tickets.find? (fun u => u.id == tid) = some t) :
    (ticket_detail_post s tid none (some "") none none = .ok s) ∧
    (ticket_detail_post s tid none none none (some "") = .ok s) ∧
    (∀ a : String, t.assignee = some a → a ≠ "" →
      ∃ s', ticket_detail_post s tid none none (some "") none = .ok s' ∧
        s'.events = s.events ++ [⟨s.nextEventId, tid, "user", "assignee",
          some a, some "", s.now + 1⟩] ∧
        (s'.tickets.find? (fun u => u.id == tid)).map Ticket.assignee
          = some (some "")) ∧
    (∀ (P : Option String → Prop) (u : AppState), Reach P u →
      ∀ t' ∈ u.tickets, t'.status ≠ "" ∧ t'.priority ≠ "") := by
  have hid : t.id = tid := (find?_ticket_mem hfind).2
  refine ⟨?_, ?_, ?_, ?_⟩
  · have hguard : ¬(("" : String) ≠ "" ∧ ("" : String) ≠ t.status) := by simp
    simp only [ticket_detail_post, hfind, upd_status, upd_assignee,
      upd_priority, if_neg hguard]
    rfl
  · have hguard : ¬(("" : String) ≠ "" ∧ ("" : String) ≠ t.priority) := by simp
    simp only [ticket_detail_post, hfind, upd_status, upd_assignee,
      upd_priority, if_neg hguard]
    rfl
  · intro a ha hane
    have hguard : ("" : String) ≠ (t.assignee.getD "") := by
      simp [ha]
      exact fun hcon => hane hcon.symm
    refine ⟨{ add_event s t.id "user" "assignee" (some (t.assignee.getD ""))
        (some "") with
      tickets := s.tickets.map fun u =>
        if u.id == tid then { t with assignee := some "", updated_at := s.now + 2 }
        else u,
      now := s.now + 2 }, ?_, ?_, ?_⟩
    · simp only [ticket_detail_post, hfind, upd_status, upd_assignee,
        upd_priority, if_pos hguard]
      rfl
    · simp [add_event, hid, ha]
    · show ((s.tickets.map fun u => if u.id == tid then _ else u).find?
        (fun u => u.id == tid)).map Ticket.assignee = some (some "")
      rw [find?_map_commit s.tickets tid t]
      · rfl
      · exact hfind
      · exact hid
  · intro P u hu t' ht'
    exact (reach_inv P u hu).t_nonempty t' ht'

/-- C10 witness: on `exS2` (status `prog`, priority `high`, assignee
`alice`) empty status and priority submissions are no-ops, while an empty
assignee submission clears the assignee with one Event. -/
theorem empty_status_priority_ignored_witness :
    (ticket_detail_post exS2 1 none (some "") none none = .ok exS2) ∧
    (ticket_detail_post exS2 1 none none none (some "") = .ok exS2) ∧
    (∃ s', ticket_detail_post exS2 1 none none (some "") none = .ok s' ∧
      s'.events = exS2.events ++ [⟨exS2.nextEventId, 1, "user", "assignee",
        some "alice", some "", exS2.now + 1⟩] ∧
      (s'.tickets.find? (fun u => u.id == 1)).map Ticket.assignee
        = some (some "")) := by
  have h := empty_status_priority_ignored exS2 1
    ⟨1, "Printer broken", "HP on 3F", "alice", some "alice", "high", "prog", 1, 5⟩
    (by decide)
  exact ⟨h.1, h.2.1, h.2.2.1 "alice" rfl (by decide)⟩

/-- C4: in every reachable state, replaying every ticket's audit trail in
chronological order from the creation event forward (applying each recorded
status and assignee transition) reproduces exactly the status and assignee
the ticket row currently holds, and the history query (Events ordered by
`created_at` descending) returns exactly the reversal of that chronological
trail. -/
theorem replay_reconstructs (s : AppState) (h : Reach (fun _ => True) s) :
    ∀ t ∈ s.tickets, replay (chron s t.id) = (t.status, t.assignee) ∧
      eventsDesc s t.id = (chron s t.id).reverse := by
  have hs := reach_inv _ s h
  intro t ht
  exact ⟨hs.replay_ok t ht, eventsDesc_eq_reverse s t.id hs⟩

/-- C4 witness: the spec's scenario (create, then status open→prog and
assignee unset→alice). -/
theorem replay_reconstructs_witness :
    replay (chron exS2 1) = ("prog", some "alice") ∧
    eventsDesc exS2 1 = (chron exS2 1).reverse := by
  have h := replay_reconstructs exS2 exS2_reach
    ⟨1, "Printer broken", "HP on 3F", "alice", some "alice", "high", "prog", 1, 5⟩
    (by decide)
  exact h

/-- C7 counterexample: a successful `add_comment` on `exS1` inserts the
comment row (and its Event) but the ticket's `updated_at` stays exactly
where it was (1), because the handler never touches the ticket row, so the
SQLAlchemy `onupdate` hook does not fire — refuting the claim that child
records strictly advance the last-update timestamp. -/
theorem child_bump_counterexample :
    add_comment exS1 1 (some "bob") (some "hello") = .ok exS3 ∧
    exS3.comments.length = 1 ∧
    exS1.tickets.map Ticket.updated_at = [1] ∧
    exS3.tickets.map Ticket.updated_at = [1] := by
  refine ⟨?_, by decide, by decide, by decide⟩
  rfl

/-- C7 (amended): `add_comment` and `upload_attach` leave the tickets table
(and hence every ticket's `updated_at`) entirely unchanged; only a
`ticket_detail_post` that actually changes a field (equivalently: appends at
least one Event) strictly advances the ticket's `updated_at`. -/
theorem child_no_bump_update_bumps :
    (∀ (s s' : AppState) (tid : Nat) (au bo : Option String),
      add_comment s tid au bo = .ok s' → s'.tickets = s.tickets) ∧
    (∀ (s s' : AppState) (tid : Nat) (au fn : Option String) (sz : Nat),
      upload_attach s tid au fn sz = .ok s' → s'.tickets = s.tickets) ∧
    (∀ (P : Option String → Prop) (s : AppState), Reach P s →
      ∀ (tid : Nat) (a st asg pr : Option String) (s' : AppState) (t t' : Ticket),
        s.tickets.find? (fun u => u.id == tid) = some t →
        ticket_detail_post s tid a st asg pr = .ok s' →
        s.events.length < s'.events.length →
        s'.tickets.find? (fun u => u.id == tid) = some t' →
        t.updated_at < t'.updated_at) := by
  refine ⟨?_, ?_, ?_⟩
  · intro s s' tid au bo h
    exact (add_comment_tickets_eq s s' tid au bo h).1
  · intro s s' tid au fn sz h
    exact (upload_attach_tickets_eq s s' tid au fn sz h).1
  · intro P s hreach tid a st asg pr s' t t' hfind hrun hev hfind'
    have hs := reach_inv P s hreach
    obtain ⟨hmem, hid⟩ := find?_ticket_mem hfind
    have hmid0 : MidInv s tid t (s, t, false) :=
      { tickets_eq := rfl
        next_eq := rfl
        now_ge := le_refl _
        chron_other := fun _ _ => rfl
        replay_mid := by rw [← hid]; exact hs.replay_ok t hmem
        ev_tid := fun e he => Or.inr he
        ev_sorted := hs.ev_sorted
        ev_le_now := hs.ev_le_now
        id_eq := hid
        updated_eq := rfl
        nonempty := hs.t_nonempty t hmem
        unchanged := fun _ => rfl }
    have hmid := upd_priority_mid s tid t (a.getD "user") pr _
      (upd_assignee_mid s tid t (a.getD "user") asg _
        (upd_status_mid s tid t (a.getD "user") st _ hmid0))
    simp only [ticket_detail_post, hfind] at hrun
    split at hrun
    · rw [Except.ok.injEq] at hrun
      subst hrun
      simp only [] at hfind'
      rw [hmid.tickets_eq, find?_map_commit s.tickets tid t] at hfind'
      · rw [Option.some.injEq] at hfind'
        subst hfind'
        have h1 := hs.t_le_now t hmem
        have h2 := hmid.now_ge
        show t.updated_at < _ + 1
        omega
      · exact hfind
      · exact hmid.id_eq
    case _ hcond =>
      rw [Except.ok.injEq] at hrun
      subst hrun
      have hb := hmid.unchanged (by simpa using hcond)
      rw [hb] at hev
      exact absurd hev (lt_irrefl _)

/-- C7 witness: the comment run keeps the tickets table identical, and the
concrete field-changing update advances `updated_at` from 1 to 5. -/
theorem child_no_bump_update_bumps_witness :
    exS3.tickets = exS1.tickets ∧ (1 : Nat) < 5 := by
  constructor
  · exact child_no_bump_update_bumps.1 exS1 exS3 1 (some "bob") (some "hello")
      (by rfl)
  · exact child_no_bump_update_bumps.2.2 (fun _ => True) exS1 exS1_reach 1
      (some "bob") (some "prog") (some "alice") none exS2
      ⟨1, "Printer broken", "HP on 3F", "alice", none, "high", "open", 1, 1⟩
      ⟨1, "Printer broken", "HP on 3F", "alice", some "alice", "high", "prog", 1, 5⟩
      (by decide) exS2_ok (by decide) (by decide)

/-- C8 counterexample: the update handler accepts any non-empty string as a
status — posting `zebra` on `exS1` succeeds and leaves a reachable ticket
whose status is outside the claimed enumeration (and outside the UI's
`STATUS_CHOICES` vocabulary open/prog/hold/done as well). -/
theorem status_enum_counterexample :
    ticket_detail_post exS1 1 none (some "zebra") none none = .ok exZ ∧
    exZ.tickets.map Ticket.status = ["zebra"] ∧
    "zebra" ∉ ["open", "in-progress", "on-hold", "done"] ∧
    "zebra" ∉ STATUS_CHOICES.map Prod.fst := by
  refine ⟨?_, by decide, by decide, by decide⟩
  rfl

/-- C8 (amended): when every submitted status is drawn from the UI's select
options (one of the `STATUS_CHOICES` values open/prog/hold/done — the
code's enumeration, labelled 접수/처리중/보류/완료 — or empty/absent, which
the handler ignores), every reachable ticket's status is one of those four
enumerated values; the handler itself enforces no such restriction. -/
theorem status_enum_invariant (s : AppState)
    (h : Reach validStatusSubmission s) :
    ∀ t ∈ s.tickets, t.status ∈ STATUS_CHOICES.map Prod.fst := by
  induction h with
  | init =>
    intro t ht
    simp [s0] at ht
  | create s s' ti co rq pr hr hok ih =>
    intro t ht
    obtain ⟨ht_eq, _, _, _, _, _⟩ := new_ticket_ok_shape s s' ti co rq pr hok
    rw [ht_eq] at ht
    rcases List.mem_append.mp ht with hmem | hmem
    · exact ih t hmem
    · rw [List.mem_singleton] at hmem
      subst hmem
      show ("open" : String) ∈ STATUS_CHOICES.map Prod.fst
      decide
  | update s s' tid a st asg pr hr hP hok ih =>
    intro t' ht'
    have hs := reach_inv _ s hr
    simp only [ticket_detail_post] at hok
    split at hok
    · cases hok
    case _ t hfind =>
      obtain ⟨hmem, hid⟩ := find?_ticket_mem hfind
      have hmid0 : MidInv s tid t (s, t, false) :=
        { tickets_eq := rfl
          next_eq := rfl
          now_ge := le_refl _
          chron_other := fun _ _ => rfl
          replay_mid := by rw [← hid]; exact hs.replay_ok t hmem
          ev_tid := fun e he => Or.inr he
          ev_sorted := hs.ev_sorted
          ev_le_now := hs.ev_le_now
          id_eq := hid
          updated_eq := rfl
          nonempty := hs.t_nonempty t hmem
          unchanged := fun _ => rfl }
      have hmid := upd_priority_mid s tid t (a.getD "user") pr _
        (upd_assignee_mid s tid t (a.getD "user") asg _
          (upd_status_mid s tid t (a.getD "user") st _ hmid0))
      have hstat : (upd_priority (a.getD "user") pr
          (upd_assignee (a.getD "user") asg
            (upd_status (a.getD "user") st (s, t, false)))).2.1.status = t.status
          ∨ ∃ ns, st = some ns ∧ ns ≠ "" ∧
            (upd_priority (a.getD "user") pr
              (upd_assignee (a.getD "user") asg
                (upd_status (a.getD "user") st (s, t, false)))).2.1.status = ns := by
        rw [upd_priority_keeps_status, upd_assignee_keeps_status]
        exact upd_status_cases (a.getD "user") st (s, t, false)
      have hstat_mem : (upd_priority (a.getD "user") pr
          (upd_assignee (a.getD "user") asg
            (upd_status (a.getD "user") st (s, t, false)))).2.1.status
          ∈ STATUS_CHOICES.map Prod.fst := by
        rcases hstat with heq | ⟨ns, hst, hne, heq⟩
        · rw [heq]
          exact ih t hmem
        · rcases hP ns hst with hcon | hmem'
          · exact absurd hcon hne
          · rw [heq]
            exact hmem'
      split at hok
      · rw [Except.ok.injEq] at hok
        subst hok
        simp only [] at ht'
        rw [hmid.tickets_eq] at ht'
        rcases List.mem_map.mp ht' with ⟨u, hu, hfu⟩
        by_cases hb : u.id = tid
        · have hbeq : (u.id == tid) = true := by simpa using hb
          rw [if_pos hbeq] at hfu
          subst hfu
          exact hstat_mem
        · have hbeq : (u.id == tid) = false := by simpa using hb
          rw [hbeq] at hfu
          simp only [Bool.false_eq_true, if_false] at hfu
          subst hfu
          exact ih u hu
      case _ hcond =>
        rw [Except.ok.injEq] at hok
        subst hok
        have hb := hmid.unchanged (by simpa using hcond)
        rw [hb] at ht'
        exact ih t' ht'
  | comment s s' tid au bo hr hok ih =>
    intro t ht
    rw [(add_comment_tickets_eq s s' tid au bo hok).1] at ht
    exact ih t ht
  | attach s s' tid au fn sz hr hok ih =>
    intro t ht
    rw [(upload_attach_tickets_eq s s' tid au fn sz hok).1] at ht
    exact ih t ht

theorem exS2_reach_valid : Reach validStatusSubmission exS2 :=
  Reach.update exS1 exS2 1 (some "bob") (some "prog") (some "alice") none
    (Reach.create s0 exS1 _ _ _ _ Reach.init exS1_ok)
    (fun v hv => by cases hv; exact Or.inr (by decide)) exS2_ok

/-- C8 witness: the reachable state `exS2`, built with a valid status
submission, has its only ticket's status in the enumeration. -/
theorem status_enum_invariant_witness :
    ("prog" : String) ∈ STATUS_CHOICES.map Prod.fst := by
  have h := status_enum_invariant exS2 exS2_reach_valid
    ⟨1, "Printer broken", "HP on 3F", "alice", some "alice", "high", "prog", 1, 5⟩
    (by decide)
  exact h

/-- C9: two successive uploads of the same original filename to the same
ticket insert two attachment rows whose stored-location references are
distinct (each leaf combines a fresh uuid token with the sanitized original
filename) and whose ids are distinct, and each remains independently
retrievable by its own id through the download lookup.  The attachment-id
hypothesis is the auto-increment discipline every reachable store satisfies. -/
theorem attachment_no_collision (s : AppState) (tid : Nat)
    (au1 au2 : Option String) (fname : String) (sz1 sz2 : Nat)
    (s1 s2 : AppState)
    (hids : ∀ a ∈ s.attachments, a.id < s.nextAttachmentId)
    (h1 : upload_attach s tid au1 (some fname) sz1 = .ok s1)
    (h2 : upload_attach s1 tid au2 (some fname) sz2 = .ok s2) :
    ∃ a1 a2 : Attachment,
      s2.attachments = s.attachments ++ [a1, a2] ∧
      a1.stored_path ≠ a2.stored_path ∧ a1.id ≠ a2.id ∧
      a1.filename = secure_filename fname ∧
      a2.filename = secure_filename fname ∧
      download_file s2 a1.id = some (a1.stored_path, a1.filename) ∧
      download_file s2 a2.id = some (a2.stored_path, a2.filename) := by
  simp only [upload_attach] at h1
  split at h1
  · cases h1
  case _ t hfind =>
    split at h1
    case _ hf => cases h1
    case _ hf =>
      rw [Except.ok.injEq] at h1
      subst h1
      simp only [upload_attach, add_event] at h2
      simp only [hfind] at h2
      split at h2
      case _ hf2 => cases h2
      case _ hf2 =>
        rw [Except.ok.injEq] at h2
        subst h2
        refine ⟨⟨s.nextAttachmentId, t.id, secure_filename fname,
            FILES_DIR ++ "/" ++ Nat.repr t.id ++ "/" ++
              (uuidHex s.uuidCtr ++ "__" ++
               (if secure_filename fname = "" then "file"
                else secure_filename fname)),
            sz1, s.now + 1⟩,
          ⟨s.nextAttachmentId + 1, t.id, secure_filename fname,
            FILES_DIR ++ "/" ++ Nat.repr t.id ++ "/" ++
              (uuidHex (s.uuidCtr + 1) ++ "__" ++
               (if secure_filename fname = "" then "file"
                else secure_filename fname)),
            sz2, s.now + 3⟩, ?_, ?_, ?_, rfl, rfl, ?_, ?_⟩
        · simp [add_event]
        · intro heq
          have hlen := congrArg String.length heq
          simp only [String.length_append, uuidHex_length] at hlen
          omega
        · simp
        · simp only [download_file]
          rw [List.append_assoc,
            find?_append_of_none (fun a => a.id == s.nextAttachmentId)
              s.attachments _
              (fun a ha => by simpa using Nat.ne_of_lt (hids a ha))]
          simp [List.find?]
        · simp only [download_file]
          rw [List.append_assoc,
            find?_append_of_none (fun a => a.id == s.nextAttachmentId + 1)
              s.attachments _
              (fun a ha => by
                simpa using Nat.ne_of_lt (Nat.lt_succ_of_lt (hids a ha)))]
          have hne : (s.nextAttachmentId == s.nextAttachmentId + 1) = false := by
            simp
          simp [List.find?, hne]

/-- C9 witness: the two concrete `report.pdf` uploads of the spec scenario. -/
theorem attachment_no_collision_witness :
    ∃ a1 a2 : Attachment,
      exA2.attachments = exS1.attachments ++ [a1, a2] ∧
      a1.stored_path ≠ a2.stored_path ∧ a1.id ≠ a2.id ∧
      a1.filename = secure_filename "report.pdf" ∧
      a2.filename = secure_filename "report.pdf" ∧
      download_file exA2 a1.id = some (a1.stored_path, a1.filename) ∧
      download_file exA2 a2.id = some (a2.stored_path, a2.filename) :=
  attachment_no_collision exS1 1 (some "bob") (some "carol") "report.pdf"
    10 20 exA1 exA2 (by decide) (by rfl) (by rfl)

end App
